import Mathlib

/-!
Shallow embedding of `s3read_seeker.go` (package `s3ReadSeeker`).

The repository exposes a virtual, seekable byte stream over an ordered group of
S3 objects.  The external S3 service (HeadObject size lookups, GetObject range
fetches) is out of scope of the core and is modelled as an opaque record of
functions (`S3Svc`).  Machine `int64` arithmetic never overflows on the inputs
the claims range over, so offsets and sizes are embedded as `Int` and buffer
lengths (Go `len(p)`) as `Nat`.
-/

namespace S3RS

/-- Error values surfaced by the code: `io.EOF`, `io.ErrUnexpectedEOF` (from
`io.ReadFull` after a short read), the two `fmt.Errorf` failures of `Seek`,
and opaque errors coming from the S3 service itself. -/
inductive Err where
  | eof
  | unexpectedEof
  | invalidWhence (w : ℤ)
  | invalidOffset (off : ℤ)
  | svcFail (code : ℕ)
  deriving DecidableEq, Repr

/-- The Go `Object` struct (the `client` and `bucketName` handles carry no
behaviour in the model and are omitted): a key, the recorded `size` discovered
at construction, and the unused `offset` field. -/
structure Object where
  key : String
  size : ℤ
  offset : ℤ
  deriving DecidableEq, Repr

/-- The external S3 service, out of scope of the repository's core:
`objData k` is the byte content stored under key `k` (a range request is served
clamped to the stored data), `getErr k` is an optional transport error for
`GetObject` calls on `k`, and `headSize k` is the `HeadObject` ContentLength
result for `k`. -/
structure S3Svc where
  objData : String → List ℕ
  getErr : String → Option Err
  headSize : String → Except Err ℤ

/-- `Object.ReadAt` (source lines 21–35): issue a `GetObject` with range
`bytes=off-(off+reqLen-1)` and `io.ReadFull` the body into the buffer of
length `reqLen`.  `io.ReadFull` returns `nil` iff it filled the buffer,
`io.EOF` if no byte at all was read, and `io.ErrUnexpectedEOF` after reading
some but not all bytes.  The result is (count, error, bytes written). -/
def Object.readAt (svc : S3Svc) (o : Object) (reqLen off : ℤ) :
    ℤ × Option Err × List ℕ :=
  match svc.getErr o.key with
  | some e => (0, some e, [])
  | none =>
    if (((((svc.objData o.key).drop off.toNat).take reqLen.toNat).length : ℤ) = reqLen) then
      (reqLen, none, ((svc.objData o.key).drop off.toNat).take reqLen.toNat)
    else if ((((svc.objData o.key).drop off.toNat).take reqLen.toNat).length = 0) then
      (0, some Err.eof, [])
    else (((((svc.objData o.key).drop off.toNat).take reqLen.toNat).length : ℤ),
      some Err.unexpectedEof, (((svc.objData o.key).drop off.toNat).take reqLen.toNat))

/-- One underlying fetch issued by `S3ReadSeeker.ReadAt`: the member's position
in the group, the member-local offset, the requested length, and the position
in the destination buffer it fills. -/
structure FetchRec where
  idx : ℕ
  localOff : ℤ
  len : ℤ
  destOff : ℤ
  deriving DecidableEq, Repr

/-- The Go `S3ReadSeeker` struct (client/bucket handles and the mutex, which
only serialises access, omitted): the ordered member objects and the cursor
`globalOffset`. -/
structure S3ReadSeeker where
  objectMembers : List Object
  globalOffset : ℤ
  deriving DecidableEq, Repr

/-- The member loop of `S3ReadSeeker.ReadAt` (source lines 83–115).  `pLen` is
the caller's buffer length; `off`, `pOff`, `n` are the loop variables.  Besides
the Go result `(n, err)` the model returns the bytes written into the buffer
so far and the list of fetches issued (instrumentation; `idx` counts the
member's position).  Branch conditions are transcribed literally:
`off >= obj.size` skips the member, and `end+1 > obj.size` (with
`end = off + len(p[pOff:]) - 1`) takes the partial-tail branch. -/
def readAtLoop (svc : S3Svc) (pLen : ℕ) :
    List Object → ℤ → ℤ → ℤ → ℕ → List ℕ → List FetchRec →
    ℤ × Option Err × List ℕ × List FetchRec
  | [], _, _, _, _, acc, fs => (0, some Err.eof, acc, fs)
  | o :: rest, off, pOff, n, idx, acc, fs =>
    if o.size ≤ off then
      readAtLoop svc pLen rest (off - o.size) pOff n (idx + 1) acc fs
    else if o.size < off + ((pLen : ℤ) - pOff) then
      match Object.readAt svc o (o.size - off) off with
      | (_, some e, bs) => (n, some e, acc ++ bs, fs ++ [⟨idx, off, o.size - off, pOff⟩])
      | (m, none, bs) =>
        readAtLoop svc pLen rest 0 (pOff + (o.size - off)) (n + m) (idx + 1)
          (acc ++ bs) (fs ++ [⟨idx, off, o.size - off, pOff⟩])
    else
      match Object.readAt svc o ((pLen : ℤ) - pOff) off with
      | (_, some e, bs) => (n, some e, acc ++ bs, fs ++ [⟨idx, off, (pLen : ℤ) - pOff, pOff⟩])
      | (m, none, bs) => (n + m, none, acc ++ bs, fs ++ [⟨idx, off, (pLen : ℤ) - pOff, pOff⟩])

/-- `S3ReadSeeker.ReadAt` over a buffer of length `pLen` at absolute offset
`off`: run the member loop from the initial loop state. -/
def S3ReadSeeker.readAt (svc : S3Svc) (s : S3ReadSeeker) (pLen : ℕ) (off : ℤ) :
    ℤ × Option Err × List ℕ × List FetchRec :=
  readAtLoop svc pLen s.objectMembers off 0 0 0 [] []

/-- `S3ReadSeeker.ReadAt` as a state-passing operation: the Go method never
assigns to any receiver field, so the state out equals the state in. -/
def S3ReadSeeker.readAtOp (svc : S3Svc) (s : S3ReadSeeker) (pLen : ℕ) (off : ℤ) :
    (ℤ × Option Err × List ℕ × List FetchRec) × S3ReadSeeker :=
  (s.readAt svc pLen off, s)

/-- `S3ReadSeeker.Read` (source lines 72–81): `ReadAt` at the current cursor;
on error return without touching the cursor, otherwise advance the cursor by
the returned count. -/
def S3ReadSeeker.readOp (svc : S3Svc) (s : S3ReadSeeker) (pLen : ℕ) :
    (ℤ × Option Err × List ℕ × List FetchRec) × S3ReadSeeker :=
  match s.readAtOp svc pLen s.globalOffset with
  | ((m, some e, bs, fr), s1) => ((m, some e, bs, fr), s1)
  | ((m, none, bs, fr), s1) =>
    ((m, none, bs, fr), { s1 with globalOffset := s1.globalOffset + m })

/-- The shared validation/commit tail of `Seek` (source lines 135–139): a
negative computed offset is rejected with the cursor untouched, any other value
is committed and returned. -/
def seekCommit (s : S3ReadSeeker) (newOffset : ℤ) : (ℤ × Option Err) × S3ReadSeeker :=
  if newOffset < 0 then ((0, some (Err.invalidOffset newOffset)), s)
  else ((newOffset, none), { s with globalOffset := newOffset })

/-- `S3ReadSeeker.Seek` (source lines 117–140).  `whence` is the Go `int`
argument (`io.SeekStart = 0`, `io.SeekCurrent = 1`, `io.SeekEnd = 2`); the
from-end total is accumulated by the same left fold the Go loop performs. -/
def S3ReadSeeker.seek (s : S3ReadSeeker) (offset : ℤ) (whence : ℤ) :
    (ℤ × Option Err) × S3ReadSeeker :=
  if whence = 0 then seekCommit s offset
  else if whence = 1 then seekCommit s (s.globalOffset + offset)
  else if whence = 2 then
    seekCommit s ((s.objectMembers.foldl (fun a o => a + o.size) 0) + offset)
  else ((0, some (Err.invalidWhence whence)), s)

/-- The size-lookup loop of `NewS3ReadSeeker` (source lines 52–68): one
`HeadObject` per key in input order, aborting on the first error.  Returns the
built member list (or the first error) together with the trace of keys that
were actually looked up. -/
def buildMembers (svc : S3Svc) : List String → Except Err (List Object) × List String
  | [] => (Except.ok [], [])
  | k :: rest =>
    match svc.headSize k with
    | Except.error e => (Except.error e, [k])
    | Except.ok sz =>
      match buildMembers svc rest with
      | (Except.error e, tr) => (Except.error e, k :: tr)
      | (Except.ok ms, tr) => (Except.ok (⟨k, sz, 0⟩ :: ms), k :: tr)

/-- `NewS3ReadSeeker` (source lines 45–70): on success a stream with cursor 0
and the members in input order; on a lookup failure the error and no stream. -/
def newS3ReadSeeker (svc : S3Svc) (keys : List String) :
    Except Err S3ReadSeeker × List String :=
  match buildMembers svc keys with
  | (Except.error e, tr) => (Except.error e, tr)
  | (Except.ok ms, tr) => (Except.ok ⟨ms, 0⟩, tr)

/-! ### Derived notions used to state the claims -/

/-- Total logical size: the sum of the recorded member sizes. -/
def totalSize (objs : List Object) : ℤ := (objs.map Object.size).sum

/-- The flat byte array: the concatenation of the members' stored contents in
input order. -/
def flatOf (svc : S3Svc) (objs : List Object) : List ℕ :=
  (objs.map (fun o => svc.objData o.key)).flatten

/-- A member is well formed when its recorded size matches the stored content's
length and the service serves it without a transport error. -/
def wfMember (svc : S3Svc) (o : Object) : Prop :=
  o.size = ((svc.objData o.key).length : ℤ) ∧ svc.getErr o.key = none

instance (svc : S3Svc) (o : Object) : Decidable (wfMember svc o) := by
  unfold wfMember; infer_instance

/-- All members of a stream are well formed. -/
def wfStream (svc : S3Svc) (objs : List Object) : Prop :=
  ∀ o ∈ objs, wfMember svc o

instance (svc : S3Svc) (objs : List Object) : Decidable (wfStream svc objs) :=
  List.decidableBAll _ objs

/-- The interior segment boundaries of the concatenation: the positions
between two consecutive members (the total size is not a boundary). -/
def cuts : List Object → List ℤ
  | [] => []
  | o :: rest =>
    if rest.isEmpty then [] else o.size :: (cuts rest).map (fun b => b + o.size)

/-- The fetch plan the member loop produces on a successful read: skip members
wholly before `off`, then fetch member tails until the remaining length `rem`
fits inside a member.  (Same branch conditions as `readAtLoop`.) -/
def planOf : List Object → ℕ → ℤ → ℤ → ℤ → List FetchRec
  | [], _, _, _, _ => []
  | o :: rest, idx, off, rem, dst =>
    if o.size ≤ off then planOf rest (idx + 1) (off - o.size) rem dst
    else if o.size < off + rem then
      ⟨idx, off, o.size - off, dst⟩ ::
        planOf rest (idx + 1) 0 (rem - (o.size - off)) (dst + (o.size - off))
    else [⟨idx, off, rem, dst⟩]

/-- The fetches fill the destination buffer contiguously starting at `d`. -/
def contiguousFrom : ℤ → List FetchRec → Prop
  | _, [] => True
  | d, f :: fs => f.destOff = d ∧ contiguousFrom (d + f.len) fs

/-- The fetches hit members at strictly increasing positions, all `≥ i`. -/
def idxChain : ℕ → List FetchRec → Prop
  | _, [] => True
  | i, f :: fs => i ≤ f.idx ∧ idxChain (f.idx + 1) fs

/-! ### Basic lemmas -/

theorem totalSize_nil : totalSize [] = 0 := rfl

theorem totalSize_cons (o : Object) (rest : List Object) :
    totalSize (o :: rest) = o.size + totalSize rest := by
  simp [totalSize]

theorem totalSize_nonneg {svc : S3Svc} {objs : List Object}
    (h : wfStream svc objs) : 0 ≤ totalSize objs := by
  induction objs with
  | nil => simp [totalSize_nil]
  | cons o rest ih =>
    have ho := (h o (by simp)).1
    have hr := ih (fun x hx => h x (by simp [hx]))
    rw [totalSize_cons]
    omega

theorem flatOf_nil (svc : S3Svc) : flatOf svc [] = [] := rfl

theorem flatOf_cons (svc : S3Svc) (o : Object) (rest : List Object) :
    flatOf svc (o :: rest) = svc.objData o.key ++ flatOf svc rest := by
  simp [flatOf]

/-- A fetch that stays inside the stored data succeeds, delivering exactly the
requested slice. -/
theorem fetch_wf {svc : S3Svc} {o : Object} (hwf : wfMember svc o)
    {reqLen off : ℤ} (hoff : 0 ≤ off) (hlen : 0 ≤ reqLen)
    (hle : off + reqLen ≤ o.size) :
    Object.readAt svc o reqLen off =
      (reqLen, none, ((svc.objData o.key).drop off.toNat).take reqLen.toNat) := by
  obtain ⟨hsz, herr⟩ := hwf
  have hl : ((((svc.objData o.key).drop off.toNat).take reqLen.toNat).length : ℤ)
      = reqLen := by
    simp only [List.length_take, List.length_drop]
    omega
  simp only [Object.readAt, herr]
  rw [if_pos hl]

/-- `Object.ReadAt` never reports a negative count. -/
theorem fetch_n_nonneg (svc : S3Svc) (o : Object) (reqLen off : ℤ) :
    0 ≤ (Object.readAt svc o reqLen off).1 := by
  rcases hg : svc.getErr o.key with _ | e
  · simp only [Object.readAt, hg]
    by_cases hc : (((((svc.objData o.key).drop off.toNat).take reqLen.toNat).length : ℤ)
        = reqLen)
    · rw [if_pos hc]; show 0 ≤ reqLen; omega
    · rw [if_neg hc]
      by_cases h0 : ((((svc.objData o.key).drop off.toNat).take reqLen.toNat).length = 0)
      · rw [if_pos h0]
      · rw [if_neg h0]
        show 0 ≤ (((((svc.objData o.key).drop off.toNat).take reqLen.toNat).length : ℕ) : ℤ)
        exact Int.ofNat_nonneg _
  · simp only [Object.readAt, hg]
    show (0 : ℤ) ≤ 0
    omega

/-- On success, `Object.ReadAt` reports exactly the requested length. -/
theorem fetch_ok_n (svc : S3Svc) (o : Object) (reqLen off : ℤ)
    (h : (Object.readAt svc o reqLen off).2.1 = none) :
    (Object.readAt svc o reqLen off).1 = reqLen := by
  rcases hg : svc.getErr o.key with _ | e
  · simp only [Object.readAt, hg] at h ⊢
    by_cases hc : (((((svc.objData o.key).drop off.toNat).take reqLen.toNat).length : ℤ)
        = reqLen)
    · rw [if_pos hc]
    · rw [if_neg hc] at h
      by_cases h0 : ((((svc.objData o.key).drop off.toNat).take reqLen.toNat).length = 0)
      · rw [if_pos h0] at h; simp at h
      · rw [if_neg h0] at h; simp at h
  · simp only [Object.readAt, hg] at h
    simp at h

/-- If the requested offset is at or past the total size (and sizes are
non-negative), the loop skips every member and returns `(0, io.EOF)` with the
buffer and fetch trace untouched. -/
theorem readAtLoop_eofAll (svc : S3Svc) (pLen : ℕ) :
    ∀ (objs : List Object) (off pOff n : ℤ) (idx : ℕ)
      (acc : List ℕ) (fs : List FetchRec),
      (∀ o ∈ objs, 0 ≤ o.size) → totalSize objs ≤ off →
      readAtLoop svc pLen objs off pOff n idx acc fs = (0, some Err.eof, acc, fs)
  | [], off, pOff, n, idx, acc, fs, _, _ => rfl
  | o :: rest, off, pOff, n, idx, acc, fs, hnn, hle => by
    have hrest : 0 ≤ totalSize rest :=
      List.sum_nonneg (by
        intro x hx
        simp only [List.mem_map] at hx
        obtain ⟨u, hu, rfl⟩ := hx
        exact hnn u (by simp [hu]))
    have hskip : o.size ≤ off := by
      rw [totalSize_cons] at hle; omega
    rw [readAtLoop, if_pos hskip]
    exact readAtLoop_eofAll svc pLen rest (off - o.size) pOff n (idx + 1) acc fs
      (fun x hx => hnn x (by simp [hx]))
      (by rw [totalSize_cons] at hle; omega)

/-- Characterization of the member loop on a well-formed stream when the
requested range lies inside the total size: it succeeds, reports the remaining
buffer length, appends exactly the corresponding slice of the flat
concatenation to the bytes written, and issues exactly the fetch plan
`planOf`. -/
theorem readAtLoop_ok (svc : S3Svc) (pLen : ℕ) :
    ∀ (objs : List Object) (off pOff n : ℤ) (idx : ℕ)
      (acc : List ℕ) (fs : List FetchRec),
      wfStream svc objs → 0 ≤ off → 0 ≤ pOff → pOff ≤ (pLen : ℤ) →
      off < totalSize objs → off + ((pLen : ℤ) - pOff) ≤ totalSize objs →
      readAtLoop svc pLen objs off pOff n idx acc fs =
        (n + ((pLen : ℤ) - pOff), none,
         acc ++ ((flatOf svc objs).drop off.toNat).take ((pLen : ℤ) - pOff).toNat,
         fs ++ planOf objs idx off ((pLen : ℤ) - pOff) pOff)
  | [], off, pOff, n, idx, acc, fs, _, hoff, _, _, hlt, _ => by
    rw [totalSize_nil] at hlt; omega
  | o :: rest, off, pOff, n, idx, acc, fs, hwf, hoff, hp0, hpl, hlt, hle => by
    have hmem : wfMember svc o := hwf o (by simp)
    have hsz : o.size = ((svc.objData o.key).length : ℤ) := hmem.1
    have hwfr : wfStream svc rest := fun x hx => hwf x (List.mem_cons_of_mem _ hx)
    have htc : totalSize (o :: rest) = o.size + totalSize rest := totalSize_cons o rest
    by_cases hA : o.size ≤ off
    · rw [readAtLoop, if_pos hA]
      rw [readAtLoop_ok svc pLen rest (off - o.size) pOff n (idx + 1) acc fs hwfr
        (by omega) hp0 hpl (by omega) (by omega)]
      have hdrop : (svc.objData o.key ++ flatOf svc rest).drop off.toNat
          = (flatOf svc rest).drop (off - o.size).toNat := by
        rw [show off.toNat = (svc.objData o.key).length + (off - o.size).toNat from by
          omega]
        exact List.drop_append _
      rw [flatOf_cons, planOf, if_pos hA, hdrop]
    · have h1 : off < o.size := not_le.mp hA
      by_cases hB : o.size < off + ((pLen : ℤ) - pOff)
      · have hfetch := fetch_wf hmem hoff (by omega : (0 : ℤ) ≤ o.size - off)
          (by omega : off + (o.size - off) ≤ o.size)
        rw [readAtLoop, if_neg hA, if_pos hB, hfetch]
        change readAtLoop svc pLen rest 0 (pOff + (o.size - off)) (n + (o.size - off))
          (idx + 1)
          (acc ++ ((svc.objData o.key).drop off.toNat).take (o.size - off).toNat)
          (fs ++ [⟨idx, off, o.size - off, pOff⟩]) = _
        rw [readAtLoop_ok svc pLen rest 0 (pOff + (o.size - off)) (n + (o.size - off))
          (idx + 1) _ _ hwfr (by omega) (by omega) (by omega) (by omega) (by omega)]
        rw [flatOf_cons, planOf, if_neg hA, if_pos hB]
        have hserved : ((svc.objData o.key).drop off.toNat).take (o.size - off).toNat
            = (svc.objData o.key).drop off.toNat := by
          apply List.take_of_length_le
          rw [List.length_drop]
          omega
        have hlen2 : ((svc.objData o.key).drop off.toNat).length ≤ ((pLen : ℤ) - pOff).toNat := by
          rw [List.length_drop]
          omega
        have htake : ((svc.objData o.key ++ flatOf svc rest).drop off.toNat).take
              ((pLen : ℤ) - pOff).toNat
            = (svc.objData o.key).drop off.toNat ++
              (flatOf svc rest).take ((pLen : ℤ) - pOff - (o.size - off)).toNat := by
          rw [List.drop_append_eq_append_drop,
            show off.toNat - (svc.objData o.key).length = 0 from by omega,
            List.drop_zero, List.take_append_eq_append_take,
            List.take_of_length_le hlen2,
            show ((pLen : ℤ) - pOff).toNat - ((svc.objData o.key).drop off.toNat).length
              = ((pLen : ℤ) - pOff - (o.size - off)).toNat from by
                rw [List.length_drop]; omega]
        rw [show (pLen : ℤ) - (pOff + (o.size - off)) = (pLen : ℤ) - pOff - (o.size - off)
          from by ring]
        rw [show n + (o.size - off) + ((pLen : ℤ) - pOff - (o.size - off))
          = n + ((pLen : ℤ) - pOff) from by ring]
        rw [hserved, htake, Int.toNat_zero, List.drop_zero]
        rw [List.append_assoc acc, List.append_assoc fs, List.singleton_append]
      · have h2 : off + ((pLen : ℤ) - pOff) ≤ o.size := not_lt.mp hB
        have hfetch := fetch_wf hmem hoff (by omega : (0 : ℤ) ≤ (pLen : ℤ) - pOff) h2
        rw [readAtLoop, if_neg hA, if_neg hB, hfetch]
        change (n + ((pLen : ℤ) - pOff), none,
          acc ++ ((svc.objData o.key).drop off.toNat).take ((pLen : ℤ) - pOff).toNat,
          fs ++ [⟨idx, off, (pLen : ℤ) - pOff, pOff⟩]) = _
        rw [flatOf_cons, planOf, if_neg hA, if_neg hB]
        rw [show ((svc.objData o.key ++ flatOf svc rest).drop off.toNat).take
              ((pLen : ℤ) - pOff).toNat
            = ((svc.objData o.key).drop off.toNat).take ((pLen : ℤ) - pOff).toNat from by
          rw [List.drop_append_eq_append_drop,
            show off.toNat - (svc.objData o.key).length = 0 from by omega,
            List.drop_zero, List.take_append_eq_append_take,
            show ((pLen : ℤ) - pOff).toNat - ((svc.objData o.key).drop off.toNat).length = 0
              from by rw [List.length_drop]; omega,
            List.take_zero, List.append_nil]]

theorem idxChain_mono {i j : ℕ} (hij : i ≤ j) :
    ∀ {l : List FetchRec}, idxChain j l → idxChain i l
  | [], _ => trivial
  | _ :: _, h => ⟨le_trans hij h.1, h.2⟩

/-- With all member sizes positive, every interior boundary is positive. -/
theorem cuts_pos : ∀ (objs : List Object), (∀ o ∈ objs, 0 < o.size) →
    ∀ b ∈ cuts objs, 0 < b
  | [], _, b, hb => by simp [cuts] at hb
  | o :: rest, hpos, b, hb => by
    rw [cuts] at hb
    by_cases he : rest.isEmpty
    · rw [if_pos he] at hb; simp at hb
    · rw [if_neg he] at hb
      rcases List.mem_cons.mp hb with rfl | hb2
      · exact hpos o (by simp)
      · obtain ⟨c, hc, rfl⟩ := List.mem_map.mp hb2
        have hc0 := cuts_pos rest (fun x hx => hpos x (by simp [hx])) c hc
        have ho := hpos o (by simp)
        omega

/-- Properties of the fetch plan on a positive-length in-range request over
members of positive size: the number of fetches is one more than the number of
interior boundaries strictly inside the requested range; the fetches tile the
destination buffer contiguously from `dst`; their lengths sum to the request
length and are all positive; and they hit members in increasing order. -/
theorem planOf_spec : ∀ (objs : List Object) (idx : ℕ) (off rem dst : ℤ),
    (∀ o ∈ objs, 0 < o.size) → 0 ≤ off → 0 < rem → off + rem ≤ totalSize objs →
    (planOf objs idx off rem dst).length
        = 1 + ((cuts objs).countP (fun b => decide (off < b ∧ b < off + rem))) ∧
    contiguousFrom dst (planOf objs idx off rem dst) ∧
    ((planOf objs idx off rem dst).map FetchRec.len).sum = rem ∧
    idxChain idx (planOf objs idx off rem dst) ∧
    (∀ f ∈ planOf objs idx off rem dst, 0 < f.len)
  | [], idx, off, rem, dst, _, hoff, hrem, hle => by
    rw [totalSize_nil] at hle; omega
  | o :: rest, idx, off, rem, dst, hpos, hoff, hrem, hle => by
    have hs0 : 0 < o.size := hpos o (by simp)
    have hposr : ∀ x ∈ rest, 0 < x.size := fun x hx => hpos x (by simp [hx])
    have htc : totalSize (o :: rest) = o.size + totalSize rest := totalSize_cons o rest
    by_cases hA : o.size ≤ off
    · have hne : ¬rest.isEmpty := by
        rcases rest with - | ⟨r, rs⟩
        · rw [totalSize_cons, totalSize_nil] at hle; omega
        · simp
      obtain ⟨ihlen, ihcont, ihsum, ihchain, ihpos⟩ :=
        planOf_spec rest (idx + 1) (off - o.size) rem dst hposr (by omega) hrem
          (by omega)
      rw [planOf, if_pos hA, cuts, if_neg hne]
      have hcnt : ((o.size :: (cuts rest).map (fun b => b + o.size)).countP
            (fun b => decide (off < b ∧ b < off + rem)))
          = ((cuts rest).countP
            (fun b => decide (off - o.size < b ∧ b < off - o.size + rem))) := by
        rw [List.countP_cons_of_neg _ _ (by simp; omega), List.countP_map]
        apply List.countP_congr
        intro c hc
        simp only [Function.comp_apply, decide_eq_true_eq]
        omega
      rw [hcnt]
      exact ⟨ihlen, ihcont, ihsum, idxChain_mono (by omega) ihchain, ihpos⟩
    · have h1 : off < o.size := not_le.mp hA
      by_cases hB : o.size < off + rem
      · have hne : ¬rest.isEmpty := by
          rcases rest with - | ⟨r, rs⟩
          · rw [totalSize_cons, totalSize_nil] at hle; omega
          · simp
        obtain ⟨ihlen, ihcont, ihsum, ihchain, ihpos⟩ :=
          planOf_spec rest (idx + 1) 0 (rem - (o.size - off)) (dst + (o.size - off))
            hposr (by omega) (by omega) (by omega)
        rw [planOf, if_neg hA, if_pos hB, cuts, if_neg hne]
        have hcnt : ((o.size :: (cuts rest).map (fun b => b + o.size)).countP
              (fun b => decide (off < b ∧ b < off + rem)))
            = 1 + ((cuts rest).countP
              (fun b => decide (0 < b ∧ b < 0 + (rem - (o.size - off))))) := by
          rw [List.countP_cons_of_pos _ _ (by simp; omega), List.countP_map]
          rw [List.countP_congr (q := fun b => decide (0 < b ∧ b < 0 + (rem - (o.size - off))))
            (by
              intro c hc
              have hc0 := cuts_pos rest hposr c hc
              simp only [Function.comp_apply, decide_eq_true_eq]
              omega)]
          omega
        refine ⟨?_, ⟨rfl, ihcont⟩, ?_, ⟨le_refl idx, ihchain⟩, ?_⟩
        · simp only [List.length_cons, hcnt, ihlen]
          omega
        · simp only [List.map_cons, List.sum_cons, ihsum]
          omega
        · intro f hf
          rcases List.mem_cons.mp hf with rfl | hf2
          · simp; omega
          · exact ihpos f hf2
      · have h2 : off + rem ≤ o.size := not_lt.mp hB
        rw [planOf, if_neg hA, if_neg hB]
        have hcnt : ((cuts (o :: rest)).countP
            (fun b => decide (off < b ∧ b < off + rem))) = 0 := by
          rw [List.countP_eq_zero]
          intro b hb
          rw [cuts] at hb
          by_cases he : rest.isEmpty
          · rw [if_pos he] at hb; simp at hb
          · rw [if_neg he] at hb
            rcases List.mem_cons.mp hb with rfl | hb2
            · simp; omega
            · obtain ⟨c, hc, rfl⟩ := List.mem_map.mp hb2
              have hc0 := cuts_pos rest hposr c hc
              simp
              omega
        rw [hcnt]
        refine ⟨by simp, ⟨rfl, trivial⟩, by simp, ⟨le_refl idx, trivial⟩, ?_⟩
        intro f hf
        rcases List.mem_cons.mp hf with rfl | hf2
        · simpa using hrem
        · simp at hf2

/-- The count reported by the loop is non-negative whenever the accumulator is. -/
theorem readAtLoop_n_nonneg (svc : S3Svc) (pLen : ℕ) :
    ∀ (objs : List Object) (off pOff n : ℤ) (idx : ℕ)
      (acc : List ℕ) (fs : List FetchRec), 0 ≤ n →
      0 ≤ (readAtLoop svc pLen objs off pOff n idx acc fs).1
  | [], off, pOff, n, idx, acc, fs, hn => by simp [readAtLoop]
  | o :: rest, off, pOff, n, idx, acc, fs, hn => by
    rw [readAtLoop]
    split
    · exact readAtLoop_n_nonneg svc pLen rest _ _ _ _ _ _ hn
    · split
      · split
        · exact hn
        · rename_i m bs heq
          have hm : 0 ≤ m := by
            have := fetch_n_nonneg svc o (o.size - off) off
            rw [heq] at this; exact this
          exact readAtLoop_n_nonneg svc pLen rest _ _ _ _ _ _ (by omega)
      · split
        · exact hn
        · rename_i m bs heq
          have hm : 0 ≤ m := by
            have := fetch_n_nonneg svc o ((pLen : ℤ) - pOff) off
            rw [heq] at this; exact this
          simp only
          omega

/-! ### Stream-level lemmas -/

theorem wf_sizes_nonneg {svc : S3Svc} {objs : List Object} (h : wfStream svc objs) :
    ∀ o ∈ objs, 0 ≤ o.size := by
  intro o ho
  rw [(h o ho).1]
  exact Int.ofNat_nonneg _

/-- `S3ReadSeeker.ReadAt` on an in-range request over a well-formed stream:
it reports the full buffer length, writes exactly the corresponding slice of
the flat concatenation, and issues the plan `planOf`. -/
theorem readAt_ok (svc : S3Svc) (s : S3ReadSeeker) (pLen : ℕ) (off : ℤ)
    (hwf : wfStream svc s.objectMembers) (hoff : 0 ≤ off)
    (hlt : off < totalSize s.objectMembers)
    (hle : off + (pLen : ℤ) ≤ totalSize s.objectMembers) :
    s.readAt svc pLen off =
      ((pLen : ℤ), none, ((flatOf svc s.objectMembers).drop off.toNat).take pLen,
       planOf s.objectMembers 0 off (pLen : ℤ) 0) := by
  unfold S3ReadSeeker.readAt
  rw [readAtLoop_ok svc pLen s.objectMembers off 0 0 0 [] [] hwf hoff (le_refl 0)
    (by omega) hlt (by omega)]
  simp

/-- `S3ReadSeeker.ReadAt` at or past the total size: `(0, io.EOF)`, nothing
written, no fetch issued. -/
theorem readAt_eofAt (svc : S3Svc) (s : S3ReadSeeker) (pLen : ℕ) (off : ℤ)
    (hnn : ∀ o ∈ s.objectMembers, 0 ≤ o.size)
    (hge : totalSize s.objectMembers ≤ off) :
    s.readAt svc pLen off = (0, some Err.eof, [], []) :=
  readAtLoop_eofAll svc pLen s.objectMembers off 0 0 0 [] [] hnn hge

/-- One `Read` step on a well-formed stream whose cursor plus request length
stays within the total size: the bytes delivered are the corresponding slice of
the flat concatenation, the members are untouched, and the cursor ends at
`cursor + length` (also in the `length = 0, cursor = total` edge case, where
the read itself fails with end-of-stream). -/
theorem readOp_step (svc : S3Svc) (s : S3ReadSeeker) (L : ℕ)
    (hwf : wfStream svc s.objectMembers) (hg : 0 ≤ s.globalOffset)
    (hle : s.globalOffset + (L : ℤ) ≤ totalSize s.objectMembers) :
    (s.readOp svc L).1.2.2.1
        = ((flatOf svc s.objectMembers).drop s.globalOffset.toNat).take L ∧
    (s.readOp svc L).2.objectMembers = s.objectMembers ∧
    (s.readOp svc L).2.globalOffset = s.globalOffset + (L : ℤ) := by
  by_cases hlt : s.globalOffset < totalSize s.objectMembers
  · have h := readAt_ok svc s L s.globalOffset hwf hg hlt hle
    unfold S3ReadSeeker.readOp S3ReadSeeker.readAtOp
    rw [h]
    exact ⟨rfl, rfl, rfl⟩
  · have hL : L = 0 := by
      have := not_lt.mp hlt
      omega
    have heof := readAt_eofAt svc s L s.globalOffset (wf_sizes_nonneg hwf)
      (not_lt.mp hlt)
    unfold S3ReadSeeker.readOp S3ReadSeeker.readAtOp
    rw [heof]
    refine ⟨by simp [hL], rfl, by simp [hL]⟩

/-- A `Read` never moves the cursor backwards (the reported count is
non-negative) and never touches the member list. -/
theorem readOp_cursor (svc : S3Svc) (s : S3ReadSeeker) (pLen : ℕ)
    (hg : 0 ≤ s.globalOffset) :
    0 ≤ (s.readOp svc pLen).2.globalOffset ∧
    (s.readOp svc pLen).2.objectMembers = s.objectMembers := by
  have hn : 0 ≤ (s.readAt svc pLen s.globalOffset).1 :=
    readAtLoop_n_nonneg svc pLen s.objectMembers s.globalOffset 0 0 0 [] [] (le_refl 0)
  unfold S3ReadSeeker.readOp S3ReadSeeker.readAtOp
  rcases hr : s.readAt svc pLen s.globalOffset with ⟨m, e, bs, fr⟩
  rw [hr] at hn
  rcases e with - | e
  · exact ⟨by show 0 ≤ s.globalOffset + m; omega, rfl⟩
  · exact ⟨hg, rfl⟩

/-- The `Seek` accumulation loop over member sizes is the sum of the sizes. -/
theorem foldl_sizes : ∀ (objs : List Object) (a : ℤ),
    objs.foldl (fun a o => a + o.size) a = a + totalSize objs
  | [], a => by simp [totalSize_nil]
  | o :: rest, a => by
    rw [List.foldl_cons, foldl_sizes rest (a + o.size), totalSize_cons]
    ring

/-- Characterization of a successful construction: the members carry the input
keys in order, each recorded size is the `HeadObject` result for its key, and
every key was looked up (in order). -/
theorem buildMembers_ok (svc : S3Svc) :
    ∀ (keys : List String) (ms : List Object),
      (buildMembers svc keys).1 = Except.ok ms →
      ms.map Object.key = keys ∧
      (∀ o ∈ ms, svc.headSize o.key = Except.ok o.size ∧ o.offset = 0) ∧
      (buildMembers svc keys).2 = keys
  | [], ms, h => by
    simp only [buildMembers, Except.ok.injEq] at h
    subst h
    exact ⟨rfl, by simp, rfl⟩
  | k :: rest, ms, h => by
    rcases hk : svc.headSize k with e | sz
    · simp only [buildMembers, hk] at h
      exact Except.noConfusion h
    · rcases hr : buildMembers svc rest with ⟨r1, tr⟩
      rcases r1 with e2 | ms2
      · simp only [buildMembers, hk, hr] at h
        exact Except.noConfusion h
      · have ih := buildMembers_ok svc rest ms2 (by rw [hr])
        simp only [buildMembers, hk, hr, Except.ok.injEq] at h ⊢
        subst h
        refine ⟨by simp [ih.1], ?_, by rw [hr] at ih; simpa using ih.2.2⟩
        intro o ho
        rcases List.mem_cons.mp ho with rfl | ho2
        · exact ⟨hk, rfl⟩
        · exact ih.2.1 o ho2

/-- Characterization of a failed construction: the input splits as
`done ++ bad :: rest`, every key in `done` has a successful lookup, `bad` is
the first key whose lookup fails — with exactly the returned error — and the
lookups performed are `done ++ [bad]`. -/
theorem buildMembers_err (svc : S3Svc) :
    ∀ (keys : List String) (e : Err),
      (buildMembers svc keys).1 = Except.error e →
      ∃ done bad rest2, keys = done ++ bad :: rest2 ∧
        (∀ k ∈ done, ∃ sz, svc.headSize k = Except.ok sz) ∧
        svc.headSize bad = Except.error e ∧
        (buildMembers svc keys).2 = done ++ [bad]
  | [], e, h => by
    simp only [buildMembers] at h
    exact Except.noConfusion h
  | k :: rest, e, h => by
    rcases hk : svc.headSize k with e1 | sz
    · simp only [buildMembers, hk, Except.error.injEq] at h
      subst h
      exact ⟨[], k, rest, rfl, by simp, hk, by simp [buildMembers, hk]⟩
    · rcases hr : buildMembers svc rest with ⟨r1, tr⟩
      rcases r1 with e2 | ms2
      · simp only [buildMembers, hk, hr, Except.error.injEq] at h
        obtain ⟨done, bad, rest2, hsplit, hdone, hbad, htr⟩ :=
          buildMembers_err svc rest e (by
            rw [hr]
            show Except.error e2 = Except.error e
            rw [h])
        refine ⟨k :: done, bad, rest2, by simp [hsplit], ?_, hbad, ?_⟩
        · intro k2 hk2
          rcases List.mem_cons.mp hk2 with rfl | hk3
          · exact ⟨sz, hk⟩
          · exact hdone k2 hk3
        · rw [hr] at htr
          simp only [buildMembers, hk, hr]
          simpa using htr
      · simp only [buildMembers, hk, hr] at h
        exact Except.noConfusion h

/-- A successful `NewS3ReadSeeker` yields cursor 0 and the members built by the
lookup loop. -/
theorem newS3ReadSeeker_ok (svc : S3Svc) (keys : List String) (s : S3ReadSeeker)
    (h : (newS3ReadSeeker svc keys).1 = Except.ok s) :
    s.globalOffset = 0 ∧ (buildMembers svc keys).1 = Except.ok s.objectMembers ∧
    (newS3ReadSeeker svc keys).2 = (buildMembers svc keys).2 := by
  unfold newS3ReadSeeker at h ⊢
  rcases hr : buildMembers svc keys with ⟨r1, tr⟩
  rw [hr] at h
  rcases r1 with e | ms
  · simp at h
  · simp only [Except.ok.injEq] at h
    subst h
    exact ⟨rfl, rfl, rfl⟩

/-- The reachable states of a stream: a successful construction, followed by
any sequence of `Seek` and `Read` operations. -/
inductive Reachable (svc : S3Svc) : S3ReadSeeker → Prop where
  | init (keys : List String) (s : S3ReadSeeker)
      (h : (newS3ReadSeeker svc keys).1 = Except.ok s) : Reachable svc s
  | seekStep (s : S3ReadSeeker) (offset whence : ℤ) (h : Reachable svc s) :
      Reachable svc (s.seek offset whence).2
  | readStep (s : S3ReadSeeker) (pLen : ℕ) (h : Reachable svc s) :
      Reachable svc (s.readOp svc pLen).2

/-- A `Seek` leaves the cursor non-negative if it was, and never touches the
member list. -/
theorem seek_cursor (s : S3ReadSeeker) (offset whence : ℤ)
    (hg : 0 ≤ s.globalOffset) :
    0 ≤ (s.seek offset whence).2.globalOffset ∧
    (s.seek offset whence).2.objectMembers = s.objectMembers := by
  have hcommit : ∀ v : ℤ, 0 ≤ (seekCommit s v).2.globalOffset ∧
      (seekCommit s v).2.objectMembers = s.objectMembers := by
    intro v
    unfold seekCommit
    by_cases hv : v < 0
    · rw [if_pos hv]; exact ⟨hg, rfl⟩
    · rw [if_neg hv]; exact ⟨not_lt.mp hv, rfl⟩
  unfold S3ReadSeeker.seek
  by_cases h0 : whence = 0
  · rw [if_pos h0]; exact hcommit _
  · rw [if_neg h0]
    by_cases h1 : whence = 1
    · rw [if_pos h1]; exact hcommit _
    · rw [if_neg h1]
      by_cases h2 : whence = 2
      · rw [if_pos h2]; exact hcommit _
      · rw [if_neg h2]; exact ⟨hg, rfl⟩

/-- The cursor is non-negative in every reachable state. -/
theorem reachable_cursor_nonneg (svc : S3Svc) (s : S3ReadSeeker)
    (h : Reachable svc s) : 0 ≤ s.globalOffset := by
  induction h with
  | init keys s0 h0 => rw [(newS3ReadSeeker_ok svc keys s0 h0).1]
  | seekStep s0 offset whence _ ih => exact (seek_cursor s0 offset whence ih).1
  | readStep s0 pLen _ ih => exact (readOp_cursor svc s0 pLen ih).1

/-- `ReadAt` reports the bytes written as the requested slice of the flat
concatenation whenever the request stays within the total size. -/
theorem readAt_bytes (svc : S3Svc) (s : S3ReadSeeker) (pLen : ℕ) (off : ℤ)
    (hwf : wfStream svc s.objectMembers) (hoff : 0 ≤ off)
    (hle : off + (pLen : ℤ) ≤ totalSize s.objectMembers) :
    (s.readAt svc pLen off).2.2.1
      = ((flatOf svc s.objectMembers).drop off.toNat).take pLen := by
  by_cases hlt : off < totalSize s.objectMembers
  · rw [readAt_ok svc s pLen off hwf hoff hlt hle]
  · have hL : pLen = 0 := by
      have := not_lt.mp hlt
      omega
    rw [readAt_eofAt svc s pLen off (wf_sizes_nonneg hwf) (not_lt.mp hlt)]
    simp [hL]

/-- A failing `ReadAt` at the cursor makes `Read` return it verbatim with the
state untouched. -/
theorem readOp_of_err (svc : S3Svc) (s : S3ReadSeeker) (pLen : ℕ)
    (m : ℤ) (e : Err) (bs : List ℕ) (fr : List FetchRec)
    (h : s.readAt svc pLen s.globalOffset = (m, some e, bs, fr)) :
    s.readOp svc pLen = ((m, some e, bs, fr), s) := by
  unfold S3ReadSeeker.readOp S3ReadSeeker.readAtOp
  rw [h]

/-- A successful `ReadAt` at the cursor makes `Read` return it and advance the
cursor by the reported count. -/
theorem readOp_of_ok (svc : S3Svc) (s : S3ReadSeeker) (pLen : ℕ)
    (m : ℤ) (bs : List ℕ) (fr : List FetchRec)
    (h : s.readAt svc pLen s.globalOffset = (m, none, bs, fr)) :
    s.readOp svc pLen
      = ((m, none, bs, fr), { s with globalOffset := s.globalOffset + m }) := by
  unfold S3ReadSeeker.readOp S3ReadSeeker.readAtOp
  rw [h]

/-- The trace of lookups of `NewS3ReadSeeker` is the trace of its loop. -/
theorem newS3ReadSeeker_trace (svc : S3Svc) (keys : List String) :
    (newS3ReadSeeker svc keys).2 = (buildMembers svc keys).2 := by
  unfold newS3ReadSeeker
  rcases hr : buildMembers svc keys with ⟨r1, tr⟩
  rcases r1 with e | ms <;> rfl

/-- A failing `NewS3ReadSeeker` reports exactly the error of its loop. -/
theorem newS3ReadSeeker_err (svc : S3Svc) (keys : List String) (e : Err)
    (h : (newS3ReadSeeker svc keys).1 = Except.error e) :
    (buildMembers svc keys).1 = Except.error e := by
  unfold newS3ReadSeeker at h
  rcases hr : buildMembers svc keys with ⟨r1, tr⟩
  rw [hr] at h
  rcases r1 with e2 | ms
  · simpa using h
  · simp at h

/-! ### Concrete fixtures used by witnesses and counterexamples -/

/-- A service storing `"a" ↦ [0..9]` (10 bytes) and `"b" ↦ [10..14]`
(5 bytes); the concrete scenario of the specification. -/
def svcAB : S3Svc where
  objData k :=
    if k = "a" then [0, 1, 2, 3, 4, 5, 6, 7, 8, 9]
    else if k = "b" then [10, 11, 12, 13, 14] else []
  getErr _ := none
  headSize k :=
    if k = "a" then Except.ok 10
    else if k = "b" then Except.ok 5 else Except.error (Err.svcFail 404)

/-- The two-member stream over `svcAB`, sizes 10 and 5, cursor 0. -/
def streamAB : S3ReadSeeker := ⟨[⟨"a", 10, 0⟩, ⟨"b", 5, 0⟩], 0⟩

/-- A service storing `"c" ↦ [7, 8, 9, 10]` (4 bytes). -/
def svcC4 : S3Svc where
  objData k := if k = "c" then [7, 8, 9, 10] else []
  getErr _ := none
  headSize k := if k = "c" then Except.ok 4 else Except.error (Err.svcFail 404)

/-- The one-member stream over `svcC4`, size 4, cursor 0. -/
def streamC4 : S3ReadSeeker := ⟨[⟨"c", 4, 0⟩], 0⟩

/-- A service that stores nothing and never fails transport. -/
def svcE : S3Svc where
  objData _ := []
  getErr _ := none
  headSize _ := Except.ok 0

/-- A member whose recorded size (5) exceeds its stored data (none). -/
def objE : Object := ⟨"e", 5, 0⟩

/-- A service storing `"p" ↦ [1, 2]` (2 bytes) and nothing else. -/
def svcP : S3Svc where
  objData k := if k = "p" then [1, 2] else []
  getErr _ := none
  headSize _ := Except.ok 0

/-- A member whose recorded size (5) exceeds its stored data (2 bytes). -/
def objP : Object := ⟨"p", 5, 0⟩

/-! ### The claims -/

/-- C1: the claim states that `ReadAt(buffer, offset)` writes the clamped slice
`[offset, offset+L) ∩ [0, T)` of the flat concatenation into the buffer and
returns that clamped slice's length as its byte count.  The code violates the
count part: at offset 12 with an 8-byte buffer over a 15-byte stream (sizes
10 and 5), the clamped slice is `[12, 13, 14]` of length 3, and those 3 bytes
are indeed written (after one 3-byte fetch from the second member), but the
final `return 0, io.EOF` of the loop discards the accumulated count and
reports 0 bytes instead of 3. -/
theorem c1_partial_readat_eval :
    streamAB.readAt svcAB 8 12
      = (0, some Err.eof, [12, 13, 14], [⟨1, 2, 3, 0⟩]) ∧
    ((flatOf svcAB streamAB.objectMembers).drop 12).take 8 = [12, 13, 14] ∧
    totalSize streamAB.objectMembers = 15 := by
  refine ⟨?_, ?_, ?_⟩ <;> rfl

/-- C2: the claim states `ReadAt` returns zero bytes with end-of-stream iff
the offset is at or beyond the total size, and returns the accumulated
non-zero count whenever part of the request was satisfied.  The code violates
this: at offset 1 with a 6-byte buffer over a 4-byte stream, 3 bytes of the
request are satisfied (written into the buffer by a successful fetch), the
offset (1) is well below the total size (4), yet the call returns
`(0, io.EOF)`. -/
theorem c2_partial_eof_eval :
    streamC4.readAt svcC4 6 1
      = (0, some Err.eof, [8, 9, 10], [⟨0, 1, 3, 0⟩]) ∧
    (1 : ℤ) < totalSize streamC4.objectMembers := by
  refine ⟨?_, ?_⟩
  · rfl
  · decide

/-- C4: `Seek` computes the new cursor as `offset` for from-start (whence 0),
`cursor + offset` for from-current (whence 1), and (sum of all member sizes)
`+ offset` for from-end (whence 2); any other whence fails with an
invalid-whence error and a negative computed cursor with an invalid-offset
error, both leaving the state unchanged; otherwise the computed cursor is
committed and returned, with no upper bound enforced. -/
theorem c4_seek_cases (s : S3ReadSeeker) (offset whence : ℤ) :
    (whence = 0 →
      s.seek offset whence =
        if offset < 0 then ((0, some (Err.invalidOffset offset)), s)
        else ((offset, none), { s with globalOffset := offset })) ∧
    (whence = 1 →
      s.seek offset whence =
        if s.globalOffset + offset < 0 then
          ((0, some (Err.invalidOffset (s.globalOffset + offset))), s)
        else ((s.globalOffset + offset, none),
          { s with globalOffset := s.globalOffset + offset })) ∧
    (whence = 2 →
      s.seek offset whence =
        if totalSize s.objectMembers + offset < 0 then
          ((0, some (Err.invalidOffset (totalSize s.objectMembers + offset))), s)
        else ((totalSize s.objectMembers + offset, none),
          { s with globalOffset := totalSize s.objectMembers + offset })) ∧
    (whence ≠ 0 → whence ≠ 1 → whence ≠ 2 →
      s.seek offset whence = ((0, some (Err.invalidWhence whence)), s)) := by
  refine ⟨?_, ?_, ?_,?_⟩
  · intro h
    subst h
    rw [S3ReadSeeker.seek, if_pos rfl, seekCommit]
  · intro h
    subst h
    rw [S3ReadSeeker.seek, if_neg (by decide), if_pos rfl, seekCommit]
  · intro h
    subst h
    rw [S3ReadSeeker.seek, if_neg (by decide), if_neg (by decide), if_pos rfl,
      foldl_sizes, zero_add, seekCommit]
  · intro h0 h1 h2
    rw [S3ReadSeeker.seek, if_neg h0, if_neg h1, if_neg h2]

/-- C4 witness: from-current Seek by +7 on the two-member stream commits and
returns cursor 7. -/
theorem c4_seek_cases_witness :
    streamAB.seek 7 1 = ((7, none), { streamAB with globalOffset := 7 }) := by
  have h := (c4_seek_cases streamAB 7 1).2.1 rfl
  rw [if_neg (by decide)] at h
  exact h.trans (by decide)

/-- C6: `ReadAt` never modifies the stream state (in particular the cursor);
`Read` performs `ReadAt` at the current cursor and, on success, advances the
cursor by exactly the reported count, leaving the member list unchanged; on
any error (including end-of-stream) it returns with the state unchanged. -/
theorem c6_frame (svc : S3Svc) (s : S3ReadSeeker) (pLen : ℕ) (off : ℤ) :
    (s.readAtOp svc pLen off).2 = s ∧
    ((s.readOp svc pLen).1.2.1 = none →
      (s.readOp svc pLen).2.globalOffset = s.globalOffset + (s.readOp svc pLen).1.1 ∧
      (s.readOp svc pLen).2.objectMembers = s.objectMembers) ∧
    (∀ e, (s.readOp svc pLen).1.2.1 = some e → (s.readOp svc pLen).2 = s) ∧
    (s.readOp svc pLen).1 = s.readAt svc pLen s.globalOffset := by
  rcases hr : s.readAt svc pLen s.globalOffset with ⟨m, e, bs, fr⟩
  rcases e with - | e
  · have h := readOp_of_ok svc s pLen m bs fr hr
    refine ⟨rfl, fun _ => ⟨?_, ?_⟩, fun e2 he2 => ?_, ?_⟩
    · rw [h]
    · rw [h]
    · rw [h] at he2
      simp at he2
    · rw [h]
  · have h := readOp_of_err svc s pLen m e bs fr hr
    refine ⟨rfl, fun hnone => ?_, fun e2 he2 => ?_, ?_⟩
    · rw [h] at hnone
      simp at hnone
    · rw [h]
    · rw [h]

/-- C6 witness: an in-range 3-byte `Read` at cursor 0 advances the cursor by
exactly the reported count, and `ReadAt` leaves the state untouched. -/
theorem c6_frame_witness :
    (streamAB.readAtOp svcAB 3 11).2 = streamAB ∧
    (streamAB.readOp svcAB 3).2.globalOffset
      = streamAB.globalOffset + (streamAB.readOp svcAB 3).1.1 := by
  have h := c6_frame svcAB streamAB 3 11
  exact ⟨h.1, (h.2.1 (by decide)).1⟩

/-- C8 counterexample: the claim states that whenever the service delivers
fewer bytes than requested before its data ends — including delivering zero
bytes — the fetch fails with an error distinct from end-of-stream.  But
`io.ReadFull` returns `io.EOF` itself when no byte at all was read: a fetch of
3 bytes from a member whose stored data is empty (no transport error) returns
`(0, io.EOF)` — zero bytes delivered, fewer than requested, and the error is
exactly the end-of-stream value. -/
theorem c8_zero_byte_counterexample :
    ¬ (∀ (o : Object) (reqLen off : ℤ),
        svcE.getErr o.key = none →
        (Object.readAt svcE o reqLen off).1 < reqLen →
        (Object.readAt svcE o reqLen off).2.1 ≠ some Err.eof) := by
  intro h
  exact h objE 3 0 rfl (by decide) (by decide)

/-- C8 (amended): transport errors from the service are propagated verbatim
with no byte read; when the service delivers fewer bytes than requested before
its data ends, the fetch fails with the short-read error `io.ErrUnexpectedEOF`
— distinct from end-of-stream — if at least one byte was delivered, and with
`io.EOF` itself if zero bytes were delivered. -/
theorem c8_short_read_amended (svc : S3Svc) (o : Object) (reqLen off : ℤ) :
    (∀ e, svc.getErr o.key = some e →
      Object.readAt svc o reqLen off = (0, some e, [])) ∧
    (svc.getErr o.key = none →
      ((((svc.objData o.key).drop off.toNat).take reqLen.toNat).length : ℤ) < reqLen →
      (0 < (((svc.objData o.key).drop off.toNat).take reqLen.toNat).length →
        Object.readAt svc o reqLen off
          = (((((svc.objData o.key).drop off.toNat).take reqLen.toNat).length : ℤ),
             some Err.unexpectedEof,
             ((svc.objData o.key).drop off.toNat).take reqLen.toNat) ∧
        Err.unexpectedEof ≠ Err.eof) ∧
      ((((svc.objData o.key).drop off.toNat).take reqLen.toNat).length = 0 →
        Object.readAt svc o reqLen off = (0, some Err.eof, []))) := by
  constructor
  · intro e he
    simp only [Object.readAt, he]
  · intro hg hlt
    constructor
    · intro hpos
      refine ⟨?_, by decide⟩
      simp only [Object.readAt, hg]
      rw [if_neg (by omega), if_neg (by omega)]
    · intro h0
      simp only [Object.readAt, hg]
      rw [if_neg (by omega), if_pos h0]

/-- C8 witness: a 3-byte fetch from a member with 2 stored bytes delivers the
2 bytes and fails with the short-read error, not end-of-stream. -/
theorem c8_short_read_amended_witness :
    Object.readAt svcP objP 3 0 = (2, some Err.unexpectedEof, [1, 2]) := by
  have h := ((c8_short_read_amended svcP objP 3 0).2 rfl (by decide)).1 (by decide)
  exact h.1.trans (by decide)

/-- C10: whenever `Seek` fails (unknown whence or a negative computed offset),
the offset value returned alongside the error is 0, regardless of the current
cursor. -/
theorem c10_seek_fail_zero (s : S3ReadSeeker) (offset whence : ℤ)
    (h : (s.seek offset whence).1.2 ≠ none) :
    (s.seek offset whence).1.1 = 0 := by
  have hcommit : ∀ v : ℤ, (seekCommit s v).1.2 ≠ none → (seekCommit s v).1.1 = 0 := by
    intro v hv
    unfold seekCommit at hv ⊢
    by_cases hneg : v < 0
    · rw [if_pos hneg]
    · rw [if_neg hneg] at hv
      simp at hv
  unfold S3ReadSeeker.seek at h ⊢
  by_cases h0 : whence = 0
  · rw [if_pos h0] at h ⊢
    exact hcommit _ h
  · rw [if_neg h0] at h ⊢
    by_cases h1 : whence = 1
    · rw [if_pos h1] at h ⊢
      exact hcommit _ h
    · rw [if_neg h1] at h ⊢
      by_cases h2 : whence = 2
      · rw [if_pos h2] at h ⊢
        exact hcommit _ h
      · rw [if_neg h2]

/-- C10 witness: a Seek with unknown whence 7 at cursor 0 returns 0 with its
error. -/
theorem c10_seek_fail_zero_witness : (streamAB.seek 3 7).1.1 = 0 :=
  c10_seek_fail_zero streamAB 3 7 (by decide)

/-- C3: on a well-formed stream of positive-size members, a `ReadAt` whose
positive-length range stays within the total size issues exactly the fetches
of the plan `planOf`: one more fetch than the number of member boundaries
strictly inside the range (so a range inside one member issues exactly one
fetch, and a range spanning `k` boundaries issues `k+1`), hitting members in
increasing order, each fetch of positive length exactly filling its contiguous
slice of the destination buffer (the slices tile `[0, L)`). -/
theorem c3_fetch_plan (svc : S3Svc) (s : S3ReadSeeker) (pLen : ℕ) (off : ℤ)
    (hwf : wfStream svc s.objectMembers)
    (hpos : ∀ o ∈ s.objectMembers, 0 < o.size)
    (hoff : 0 ≤ off) (hlen : 0 < pLen)
    (hle : off + (pLen : ℤ) ≤ totalSize s.objectMembers) :
    (s.readAt svc pLen off).2.2.2 = planOf s.objectMembers 0 off (pLen : ℤ) 0 ∧
    (planOf s.objectMembers 0 off (pLen : ℤ) 0).length
      = 1 + ((cuts s.objectMembers).countP
          (fun b => decide (off < b ∧ b < off + (pLen : ℤ)))) ∧
    contiguousFrom 0 (planOf s.objectMembers 0 off (pLen : ℤ) 0) ∧
    ((planOf s.objectMembers 0 off (pLen : ℤ) 0).map FetchRec.len).sum = (pLen : ℤ) ∧
    idxChain 0 (planOf s.objectMembers 0 off (pLen : ℤ) 0) ∧
    (∀ f ∈ planOf s.objectMembers 0 off (pLen : ℤ) 0, 0 < f.len) := by
  have hlt : off < totalSize s.objectMembers := by omega
  have h := readAt_ok svc s pLen off hwf hoff hlt hle
  have hp := planOf_spec s.objectMembers 0 off (pLen : ℤ) 0 hpos hoff (by omega) hle
  exact ⟨by rw [h], hp.1, hp.2.1, hp.2.2.1, hp.2.2.2.1, hp.2.2.2.2⟩

/-- C3 witness: the specification's concrete scenario — an 8-byte read at
offset 7 over members of sizes 10 and 5 crosses the single boundary at 10 and
issues exactly 2 fetches. -/
theorem c3_fetch_plan_witness :
    (streamAB.readAt svcAB 8 7).2.2.2
      = planOf streamAB.objectMembers 0 7 (((8 : ℕ)) : ℤ) 0 ∧
    (planOf streamAB.objectMembers 0 7 (((8 : ℕ)) : ℤ) 0).length = 2 := by
  have h := c3_fetch_plan svcAB streamAB 8 7 (by decide) (by decide) (by decide)
    (by decide) (by decide)
  refine ⟨h.1, ?_⟩
  rw [h.2.1]
  decide

/-- C5: over a well-formed stream at cursor 0, three sequential `Read` calls
of sizes `a`, `b`, `c` with `a + b + c` not exceeding the total size return,
concatenated, the same bytes as a single `ReadAt` of size `a + b + c` at
offset 0, and leave the cursor at `a + b + c`. -/
theorem c5_sequential_reads (svc : S3Svc) (s : S3ReadSeeker) (a b c : ℕ)
    (hwf : wfStream svc s.objectMembers) (h0 : s.globalOffset = 0)
    (hsum : ((a : ℤ) + b + c) ≤ totalSize s.objectMembers) :
    (s.readOp svc a).1.2.2.1
      ++ ((s.readOp svc a).2.readOp svc b).1.2.2.1
      ++ (((s.readOp svc a).2.readOp svc b).2.readOp svc c).1.2.2.1
      = (s.readAt svc (a + b + c) 0).2.2.1 ∧
    (((s.readOp svc a).2.readOp svc b).2.readOp svc c).2.globalOffset
      = ((a : ℤ) + b + c) := by
  obtain ⟨hb1, hm1, hc1⟩ := readOp_step svc s a hwf (by rw [h0]) (by rw [h0]; omega)
  obtain ⟨hb2, hm2, hc2⟩ := readOp_step svc (s.readOp svc a).2 b
    (by rw [hm1]; exact hwf) (by rw [hc1, h0]; omega)
    (by rw [hm1, hc1, h0]; omega)
  obtain ⟨hb3, hm3, hc3⟩ := readOp_step svc ((s.readOp svc a).2.readOp svc b).2 c
    (by rw [hm2, hm1]; exact hwf) (by rw [hc2, hc1, h0]; omega)
    (by rw [hm2, hm1, hc2, hc1, h0]; omega)
  constructor
  · have ht0 : s.globalOffset.toNat = 0 := by rw [h0]; rfl
    have ht1 : (s.readOp svc a).2.globalOffset.toNat = a := by
      rw [hc1, h0]; omega
    have ht2 : ((s.readOp svc a).2.readOp svc b).2.globalOffset.toNat = a + b := by
      rw [hc2, hc1, h0]; omega
    rw [hb1, hb2, hb3, hm2, hm1, ht0, ht1, ht2,
      readAt_bytes svc s (a + b + c) 0 hwf le_rfl (by omega),
      Int.toNat_zero, List.drop_zero, List.take_add, List.take_add]
  · rw [hc3, hc2, hc1, h0]
    ring

/-- C5 witness: reads of sizes 4, 5, 3 over the 15-byte two-member stream. -/
theorem c5_sequential_reads_witness :
    (streamAB.readOp svcAB 4).1.2.2.1
      ++ ((streamAB.readOp svcAB 4).2.readOp svcAB 5).1.2.2.1
      ++ (((streamAB.readOp svcAB 4).2.readOp svcAB 5).2.readOp svcAB 3).1.2.2.1
      = (streamAB.readAt svcAB (4 + 5 + 3) 0).2.2.1 ∧
    (((streamAB.readOp svcAB 4).2.readOp svcAB 5).2.readOp svcAB 3).2.globalOffset
      = 12 := by
  have h := c5_sequential_reads svcAB streamAB 4 5 3 (by decide) rfl (by decide)
  refine ⟨h.1, ?_⟩
  rw [h.2]
  decide

/-- C7: construction performs one size lookup per key in input order; on the
first failing lookup it aborts, returning exactly that error and no stream
(the keys looked up are the successful front plus the failing key); on success
every key was looked up, and the stream has cursor 0 and members carrying the
input keys, in order, with the sizes the lookups discovered. -/
theorem c7_construction (svc : S3Svc) (keys : List String) :
    (∀ s, (newS3ReadSeeker svc keys).1 = Except.ok s →
      s.globalOffset = 0 ∧ s.objectMembers.map Object.key = keys ∧
      (∀ o ∈ s.objectMembers, svc.headSize o.key = Except.ok o.size) ∧
      (newS3ReadSeeker svc keys).2 = keys) ∧
    (∀ e, (newS3ReadSeeker svc keys).1 = Except.error e →
      ∃ done bad rest2, keys = done ++ bad :: rest2 ∧
        (∀ k ∈ done, ∃ sz, svc.headSize k = Except.ok sz) ∧
        svc.headSize bad = Except.error e ∧
        (newS3ReadSeeker svc keys).2 = done ++ [bad]) := by
  constructor
  · intro s hs
    obtain ⟨hg, hbm, htr⟩ := newS3ReadSeeker_ok svc keys s hs
    obtain ⟨hkeys, hsz, htr2⟩ := buildMembers_ok svc keys s.objectMembers hbm
    exact ⟨hg, hkeys, fun o ho => (hsz o ho).1, by rw [htr, htr2]⟩
  · intro e he
    obtain ⟨done, bad, rest2, hsplit, hdone, hbad, htr⟩ :=
      buildMembers_err svc keys e (newS3ReadSeeker_err svc keys e he)
    exact ⟨done, bad, rest2, hsplit, hdone, hbad,
      by rw [newS3ReadSeeker_trace, htr]⟩

/-- C7 witness: constructing over keys `["a", "b"]` yields the two-member
stream with cursor 0, the discovered sizes, and both keys looked up. -/
theorem c7_construction_witness :
    streamAB.globalOffset = 0 ∧
    streamAB.objectMembers.map Object.key = ["a", "b"] ∧
    (∀ o ∈ streamAB.objectMembers, svcAB.headSize o.key = Except.ok o.size) ∧
    (newS3ReadSeeker svcAB ["a", "b"]).2 = ["a", "b"] :=
  (c7_construction svcAB ["a", "b"]).1 streamAB rfl

/-- C9: the invariant `0 ≤ cursor` holds in every reachable stream state —
the cursor is 0 at construction, `Seek` and `Read` both preserve cursor
non-negativity (a negative computed Seek target is rejected with the cursor
unchanged, and a successful Read advances the cursor by a non-negative
count), and hence every state reachable by any sequence of operations from a
successful construction has a non-negative cursor. -/
theorem c9_cursor_nonneg (svc : S3Svc) :
    (∀ keys s, (newS3ReadSeeker svc keys).1 = Except.ok s → s.globalOffset = 0) ∧
    (∀ s : S3ReadSeeker, 0 ≤ s.globalOffset →
      ∀ offset whence : ℤ, 0 ≤ (s.seek offset whence).2.globalOffset) ∧
    (∀ s : S3ReadSeeker, 0 ≤ s.globalOffset →
      ∀ pLen : ℕ, 0 ≤ (s.readOp svc pLen).2.globalOffset) ∧
    (∀ s, Reachable svc s → 0 ≤ s.globalOffset) := by
  refine ⟨?_, ?_, ?_, ?_⟩
  · intro keys s hs
    exact (newS3ReadSeeker_ok svc keys s hs).1
  · intro s hg offset whence
    exact (seek_cursor s offset whence hg).1
  · intro s hg pLen
    exact (readOp_cursor svc s pLen hg).1
  · intro s hr
    exact reachable_cursor_nonneg svc s hr

/-- C9 witness: the freshly constructed two-member stream is reachable and its
cursor is non-negative. -/
theorem c9_cursor_nonneg_witness : 0 ≤ streamAB.globalOffset :=
  (c9_cursor_nonneg svcAB).2.2.2 streamAB (Reachable.init ["a", "b"] streamAB rfl)

end S3RS
